import Mathlib

/-!
Verification of the ZIP2VID frame-generation pipeline (`src/main.py`).

The script turns an ordered list of media files into one video: it collects
and naturally sorts files, then for each item emits composited frames to a
single ffmpeg subprocess, writing one chapter marker per item, and finally
injects the chapter metadata.  This file is a shallow embedding of the parts
of `main.py` the claims are about:

* `pyInt` models Python `int()` on an exact rational (truncation toward zero;
  the script's arithmetic is floating point, but every concrete value used in
  a theorem below is far from a representability boundary, so the rational
  model and the float computation agree on all cited inputs);
* `baseScale`, `fgW`, `fgH`, `bgSize` model the geometry of
  `get_processed_frame`;
* `zoomAt`, `numFramesStill` model the static-image branch of the main loop;
* `Media`, `animLoop`, `emitMedia`, `Dec`, `emitItem`, `mainLoop`,
  `mainModel` model the per-item emission loop, chapter writing and
  subprocess handling; an item's decode outcome (`Dec`) distinguishes a
  failure at open (nothing written) from a reader raising mid-stream (the
  already-written prefix stays in the stream), both swallowed by the
  per-item `except: pass`;
* `splitRuns`, `pyIsDigit`, `tokOf`, `pyKey`, `cmpTok`, `cmpKey`, `cmpPaths`
  model the natural-sort key `lambda s: [int(t) if t.isdigit() else
  t.lower() for t in re.split('([0-9]+)', s)]` together with Python's
  list/str/int comparison semantics.  The regex splits on ASCII digits; the
  `isdigit`/`int()` pair is Unicode-aware, modelled by a documented fragment
  of the Unicode tables that is exact on ASCII and contains every non-ASCII
  character these theorems mention; `t.lower()` is modelled with ASCII case
  folding, and every lowercasing in the statements is of ASCII text.
-/

namespace Zip2Vid

/-- Python `int()` applied to an exact rational: truncation toward zero. -/
def pyInt (q : ℚ) : ℤ := if q < 0 then ⌈q⌉ else ⌊q⌋

/-- Canvas width, from `W, H = 1920, 1080` in `main.py`. -/
def W : ℕ := 1920

/-- Canvas height, from `W, H = 1920, 1080` in `main.py`. -/
def H : ℕ := 1080

/-- Frame rate, from `FPS = 30` in `main.py`. -/
def FPS : ℚ := 30

/-- Aspect-fit scale of `get_processed_frame`:
`base_scale = min(W / fg.width, H / fg.height)`. -/
def baseScale (w h : ℕ) : ℚ := min ((W : ℚ) / w) ((H : ℚ) / h)

/-- Foreground width from `get_processed_frame`:
`int(fg.width * base_scale * zoom_factor)`. -/
def fgW (w h : ℕ) (z : ℚ) : ℤ := pyInt ((w : ℚ) * baseScale w h * z)

/-- Foreground height from `get_processed_frame`:
`int(fg.height * base_scale * zoom_factor)`. -/
def fgH (w h : ℕ) (z : ℚ) : ℤ := pyInt ((h : ℚ) * baseScale w h * z)

/-- Background size from `get_processed_frame`: the background is produced by
`blurred.resize((W, H))`, so it always has exactly the canvas size. -/
def bgSize : ℕ × ℕ := (W, H)

/-- Zoom factor of frame `idx` of a static item, from
`zoom = 1.0 + (0.02 * (idx / num_frames))` in the main loop. -/
def zoomAt (idx : ℕ) (n : ℤ) : ℚ := 1 + (2 / 100) * ((idx : ℚ) / (n : ℚ))

/-- Frame count of a static item, from
`num_frames = int(max(DURATION * FPS, 1))` in the main loop. -/
def numFramesStill (d f : ℚ) : ℤ := pyInt (max (d * f) 1)

/-- Modelled from the spec's words (not from the source), for comparison with
`numFramesStill`: the spec's per-item frame count
`max(1, round(targetDurationSeconds * fps))`. -/
def specRoundFrameCount (d f : ℚ) : ℤ := max 1 (round (d * f))

/-- Modelled from the spec's words (not from the source), for comparison with
the animated-item cap of the source: the spec caps emitted frames at
`round(duration * fps)`. -/
def specAnimCap (d f : ℚ) : ℤ := round (d * f)

/-- Decoded media, by the extension dispatch of the main loop:
`.mp4/.mov` go through the uncapped imageio branch, `.gif/.webp` through the
capped imageio branch, everything else through the static `Image.open`
branch. -/
inductive Media (α : Type) where
  | vid (frames : List α)
  | anim (frames : List α)
  | still (img : α)

/-- Animated-item reader loop of `main.py`: each native frame is written and
`count` incremented, and the loop breaks when
`n_frames and count >= n_frames` (Python truthiness: `n = 0` never breaks). -/
def animLoop {α : Type} (n : ℤ) : ℕ → List α → List α
  | _, [] => []
  | count, x :: xs =>
    x :: (if n ≠ 0 ∧ n ≤ (count : ℤ) + 1 then [] else animLoop n (count + 1) xs)

/-- Frames emitted for one decoded media item, paired with the zoom factor
passed to `get_processed_frame`.  Videos and animations use the default
`zoom_factor = 1.0`; static images use the micro-zoom progression.  The
animation cap is `n_frames = int(DURATION * FPS)`. -/
def emitMedia {α : Type} (d f : ℚ) : Media α → List (α × ℚ)
  | .vid frames => frames.map (fun fr => (fr, 1))
  | .anim frames => (animLoop (pyInt (d * f)) 0 frames).map (fun fr => (fr, 1))
  | .still img =>
    (List.range (numFramesStill d f).toNat).map
      (fun i => (img, zoomAt i (numFramesStill d f)))

/-- Decode outcome of one item, at the granularity of the per-item
`try/except` block:

* `fail` — opening the item raises (`imageio.get_reader`, `Image.open`, or,
  for a static item, the `get_processed_frame(img)` call that precedes the
  first write) before anything is written: the item emits no frames;
* `ok m` — the item decodes completely;
* `part m` — a reader-based item (`.mp4/.mov/.gif/.webp`) whose iterator
  yields the frames of `m` and then raises mid-stream.  Each yielded frame
  has already been processed and written to the encoder pipe before the next
  frame is decoded, so the partial prefix stays in the stream when
  `except: pass` swallows the error.  A static item cannot fail mid-stream
  (its single decoded frame is processed before the first write), so `part`
  only arises for the reader kinds; if the frame cap breaks the loop before
  the bad frame is reached, the exception never fires and the item behaves
  as `ok`.  In both `ok m` and `part m` the frames written are exactly the
  loop's output on the yielded frames. -/
inductive Dec (α : Type) where
  | fail : Dec α
  | ok (m : Media α) : Dec α
  | part (m : Media α) : Dec α

/-- Whether a decode outcome is a mid-stream failure. -/
def Dec.isPart {α : Type} : Dec α → Bool
  | .part _ => true
  | _ => false

/-- The media of a fully decoded item, `none` for both failure modes. -/
def Dec.okMedia {α : Type} : Dec α → Option (Media α)
  | .ok m => some m
  | _ => none

/-- One collected file: its basename (used as the chapter title) and its
decode outcome. -/
structure Item (α : Type) where
  name : String
  dec : Dec α

/-- Frames emitted for one item: nothing when opening fails, the loop's
output on the yielded frames otherwise (for a mid-stream failure those
frames were already written one by one before the exception). -/
def emitItem {α : Type} (d f : ℚ) (it : Item α) : List (α × ℚ) :=
  match it.dec with
  | .fail => []
  | .ok m => emitMedia d f m
  | .part m => emitMedia d f m

/-- One `[CHAPTER]` block of the metadata file: title, `START` and `END`
in milliseconds (`TIMEBASE=1/1000`). -/
structure Chapter where
  title : String
  start : ℤ
  stop : ℤ
deriving DecidableEq

/-- Encoding loop of `main.py` (`for f in tqdm(files, ...)`), carrying
`total_frames`: for each item it first writes a chapter marker with
`START = int((total_frames / FPS) * 1000)` and
`END = START + int(DURATION * 1000)`, then emits the item's frames (nothing
for a failed item).  Returns the whole frame stream and the chapter list. -/
def mainLoop {α : Type} (d f : ℚ) : ℕ → List (Item α) → List (α × ℚ) × List Chapter
  | _, [] => ([], [])
  | total, it :: rest =>
    let start := pyInt (((total : ℚ) / f) * 1000)
    let ch : Chapter := ⟨it.name, start, start + pyInt (d * 1000)⟩
    let fr := emitItem d f it
    let next := mainLoop d f (total + fr.length) rest
    (fr ++ next.1, ch :: next.2)

/-- The single encoder command spawned by `main.py` (the `cmd` list passed to
`subprocess.Popen`). -/
def ffmpegCmd (crf preset outPath : String) : List String :=
  ["ffmpeg", "-y", "-f", "rawvideo", "-vcodec", "rawvideo", "-s", "1920x1080",
   "-pix_fmt", "rgb24", "-r", "30", "-i", "-",
   "-c:v", "libsvtav1", "-crf", crf, "-preset", preset,
   "-svtav1-params", "tune=0:enable-overlays=1:scd=1",
   "-color_range", "1", "-colorspace", "1", "-color_primaries", "1",
   "-color_trc", "1",
   "-pix_fmt", "yuv420p10le", "-c:a", "libopus", "-b:a", "128k", outPath]

/-- Replacement of every (non-overlapping, left-to-right) occurrence of
`pat` by `rep`, the semantics of Python `str.replace` for a nonempty
pattern.  The fuel argument makes the recursion structural; one character is
consumed per step, so fuel equal to the input length suffices. -/
def replaceFuel (pat rep : List Char) : ℕ → List Char → List Char
  | _, [] => []
  | 0, l => l
  | fuel + 1, c :: cs =>
    if pat.isPrefixOf (c :: cs) ∧ pat ≠ [] then
      rep ++ replaceFuel pat rep fuel (cs.drop (pat.length - 1))
    else c :: replaceFuel pat rep fuel cs

/-- Name of the metadata-injected temporary output,
`out_path.replace(".mkv", "_final.mkv")`. -/
def finalOutOf (outPath : String) : String :=
  String.mk (replaceFuel (".mkv".data) ("_final.mkv".data)
    outPath.data.length outPath.data)

/-- The chapter-injection command run after encoding
(`ffmpeg -i out -i chapters -map_metadata 1 -codec copy final`). -/
def chapterCmd (outPath finalOut : String) : List String :=
  ["ffmpeg", "-i", outPath, "-i", "workspace/chapters.txt",
   "-map_metadata", "1", "-codec", "copy", finalOut]

/-- Observable outcome of one run of `main()` past the collect step. -/
structure RunResult (α : Type) where
  frames : List (α × ℚ)
  chapters : List Chapter
  spawned : List (List String)
  wroteOutput : Bool
  exitSuccess : Bool

/-- Model of `main()` from the `if not files` check onward.  An empty file
list prints and returns normally (exit status 0, no subprocess, no output
file).  Otherwise exactly two subprocesses are spawned: the single encoder
(`ffmpegCmd`) and the chapter-injection command; `encoderExit` is the value
returned by `process.wait()`, which the script never examines, so the result
does not depend on it. -/
def mainModel {α : Type} (d f : ℚ) (crf preset outPath : String)
    (items : List (Item α)) (encoderExit : ℤ) : RunResult α :=
  if items.isEmpty then
    { frames := [], chapters := [], spawned := [],
      wroteOutput := false, exitSuccess := true }
  else
    let r := mainLoop d f 0 items
    { frames := r.1, chapters := r.2,
      spawned := [ffmpegCmd crf preset outPath,
                  chapterCmd outPath (finalOutOf outPath)],
      wroteOutput := true, exitSuccess := true }

/-- Natural-sort run splitting, modelling `re.split('([0-9]+)', s)`: the
result alternates (possibly empty) non-digit runs with nonempty digit runs,
starting and ending with a non-digit run.  `splitStep` prepends one character
to the splitting of the tail. -/
def splitStep (c : Char) : List (List Char) → List (List Char)
  | [] => [[c]]
  | r :: rs =>
    if c.isDigit then
      match r, rs with
      | [], d :: rest => [] :: (c :: d) :: rest
      | _, _ => [] :: [c] :: r :: rs
    else (c :: r) :: rs

/-- Run splitting of a whole character list, `re.split('([0-9]+)', s)`. -/
def splitRuns : List Char → List (List Char)
  | [] => [[]]
  | c :: cs => splitStep c (splitRuns cs)

/-- Whether a character is ASCII. -/
def isAsciiChar (c : Char) : Bool := decide (c.toNat ≤ 127)

/-- Python `str.isdigit` on one character.  Python's predicate is
Unicode-aware; this models the fragment of the Unicode tables that the
theorems below mention: the ASCII digits, the Arabic-Indic decimal digits
U+0660 to U+0669, and the superscript digits U+00B9, U+00B2, U+00B3 (which
`isdigit` accepts but `int()` rejects).  On ASCII characters the fragment is
exact: only `0`-`9` are digits. -/
def pyIsDigit (c : Char) : Bool :=
  if c.isDigit then true
  else if 1632 ≤ c.toNat ∧ c.toNat ≤ 1641 then true
  else if c.toNat = 178 ∨ c.toNat = 179 ∨ c.toNat = 185 then true
  else false

/-- Decimal value of one character for Python `int()`: ASCII and
Arabic-Indic decimal digits have a value; the superscript digits do not
(`int()` raises `ValueError` on them). -/
def decDigitVal (c : Char) : Option ℕ :=
  if c.isDigit then some (c.toNat - 48)
  else if 1632 ≤ c.toNat ∧ c.toNat ≤ 1641 then some (c.toNat - 1632)
  else none

/-- Python `int(t)` on a digit token, with accumulator: `none` models
`ValueError` on a character without a decimal value. -/
def pyIntOfStr : ℕ → List Char → Option ℕ
  | acc, [] => some acc
  | acc, c :: cs =>
    match decDigitVal c with
    | some v => pyIntOfStr (10 * acc + v) cs
    | none => none

/-- One element of the Python sort key: either `int(t)` or `t.lower()`. -/
inductive Tok where
  | num (n : ℕ)
  | str (s : List Char)
deriving DecidableEq

/-- Key element for one run, from `int(t) if t.isdigit() else t.lower()`
(the empty string is not a digit string, so it stays a string); `none`
models the `ValueError` that `int(t)` raises on a token that `isdigit`
accepts but that contains a non-decimal digit character such as `²`. -/
def tokOf (run : List Char) : Option Tok :=
  if !run.isEmpty && run.all pyIsDigit then (pyIntOfStr 0 run).map Tok.num
  else some (Tok.str (run.map Char.toLower))

/-- Key elements of a list of runs, propagating a `ValueError`. -/
def tokList : List (List Char) → Option (List Tok)
  | [] => some []
  | r :: rs =>
    match tokOf r, tokList rs with
    | some t, some ts => some (t :: ts)
    | _, _ => none

/-- The sort key of one path, from
`[int(t) if t.isdigit() else t.lower() for t in re.split('([0-9]+)', s)]`;
`none` models the key lambda raising `ValueError`. -/
def pyKey (s : String) : Option (List Tok) := tokList (splitRuns s.data)

/-- Three-way comparison on naturals (Python `<` on ints). -/
def cmpNat (a b : ℕ) : Ordering :=
  if a < b then .lt else if b < a then .gt else .eq

/-- Lexicographic comparison of character lists (Python `<` on strings:
code-point order). -/
def cmpChars : List Char → List Char → Ordering
  | [], [] => .eq
  | [], _ :: _ => .lt
  | _ :: _, [] => .gt
  | a :: as, b :: bs =>
    match cmpNat a.toNat b.toNat with
    | .eq => cmpChars as bs
    | o => o

/-- Comparison of two key elements.  Comparing an `int` with a `str` raises
`TypeError` in Python, modelled as `none`. -/
def cmpTok : Tok → Tok → Option Ordering
  | .num a, .num b => some (cmpNat a b)
  | .str a, .str b => some (cmpChars a b)
  | _, _ => none

/-- Python list comparison on keys: elementwise, first difference decides, a
strict prefix is smaller, and a type mismatch at the deciding position raises
(`none`). -/
def cmpKey : List Tok → List Tok → Option Ordering
  | [], [] => some .eq
  | [], _ :: _ => some .lt
  | _ :: _, [] => some .gt
  | a :: as, b :: bs =>
    match cmpTok a b with
    | none => none
    | some Ordering.lt => some .lt
    | some Ordering.gt => some .gt
    | some Ordering.eq => cmpKey as bs

/-- Comparison the sort performs between two whole paths: build both keys,
then compare them; `none` models a crash of the sort, either the key lambda
raising `ValueError` or the element comparison raising `TypeError`. -/
def cmpPaths (s t : String) : Option Ordering :=
  match pyKey s, pyKey t with
  | some k1, some k2 => cmpKey k1 k2
  | _, _ => none

/-- Shape invariant of `splitRuns` output: a (possibly empty) non-digit run,
then alternating nonempty digit runs and non-digit runs, ending with a
non-digit run (digits here are the ASCII digits of the regex `[0-9]`). -/
inductive AltRuns : List (List Char) → Prop where
  | last (r : List Char) (hr : ∀ c ∈ r, c.isDigit = false) : AltRuns [r]
  | cons (r d : List Char) (rest : List (List Char))
      (hr : ∀ c ∈ r, c.isDigit = false) (hd : d ≠ [])
      (hd2 : ∀ c ∈ d, c.isDigit = true) (h : AltRuns rest) :
      AltRuns (r :: d :: rest)

/-- Shape of a sort key whose token positions alternate between strings and
numbers, starting and ending with a string token. -/
inductive AltToks : List Tok → Prop where
  | last (s : List Char) : AltToks [Tok.str s]
  | cons (s : List Char) (n : ℕ) (rest : List Tok) (h : AltToks rest) :
      AltToks (Tok.str s :: Tok.num n :: rest)

/-! Helper lemmas. -/

lemma pyInt_of_nonneg {q : ℚ} (h : 0 ≤ q) : pyInt q = ⌊q⌋ := by
  unfold pyInt; rw [if_neg (not_lt.mpr h)]

lemma numFramesStill_eq (d f : ℚ) : numFramesStill d f = max 1 ⌊d * f⌋ := by
  have h0 : (0 : ℚ) ≤ max (d * f) 1 := le_trans zero_le_one (le_max_right _ _)
  unfold numFramesStill
  rw [pyInt_of_nonneg h0]
  rcases le_total (d * f) 1 with h | h
  · have h1 : ⌊d * f⌋ ≤ 1 := by
      have := Int.floor_le_floor (α := ℚ) h
      simpa using this
    rw [max_eq_right h, Int.floor_one, max_eq_left h1]
  · have h1 : (1 : ℤ) ≤ ⌊d * f⌋ := by
      have := Int.floor_le_floor (α := ℚ) h
      simpa using this
    rw [max_eq_left h, max_eq_right h1]

lemma one_le_numFramesStill (d f : ℚ) : 1 ≤ numFramesStill d f := by
  rw [numFramesStill_eq]; exact le_max_left _ _

lemma numFramesStill_33_100 : numFramesStill (33/100 : ℚ) 30 = 9 := by
  rw [numFramesStill_eq]
  have : ⌊(33/100 : ℚ) * 30⌋ = 9 := by norm_num
  rw [this]; omega

lemma animLoop_zero {α : Type} : ∀ (c : ℕ) (xs : List α), animLoop 0 c xs = xs := by
  intro c xs
  induction xs generalizing c with
  | nil => rfl
  | cons x xs ih => simp [animLoop, ih]

lemma animLoop_length {α : Type} (n : ℤ) (hn : 0 < n) :
    ∀ (xs : List α) (c : ℕ), (c : ℤ) < n →
      (animLoop n c xs).length = min xs.length (n - c).toNat := by
  intro xs
  induction xs with
  | nil => intro c _; simp [animLoop]
  | cons x xs ih =>
    intro c hc
    by_cases hb : n ≤ (c : ℤ) + 1
    · rw [animLoop, if_pos ⟨hn.ne', hb⟩]
      simp only [List.length_cons, List.length_nil]
      omega
    · rw [animLoop, if_neg (fun h => hb h.2)]
      have ih' := ih (c + 1) (by push_cast; omega)
      simp only [List.length_cons, ih']
      omega

/-! Claim theorems. -/

/-- C1, amended: for every static item, the number of composited frames
emitted equals `max 1 ⌊duration * fps⌋` — Python's
`int(max(DURATION * FPS, 1))` truncates, it does not round. -/
theorem c1_theorem {α : Type} (d f : ℚ) (x : α) :
    (emitMedia d f (Media.still x)).length = (max 1 ⌊d * f⌋).toNat := by
  simp [emitMedia, numFramesStill_eq]

/-- C1 fails as stated: with the claim's own example `duration = 0.33`,
`fps = 30`, the code emits `int(max(9.9, 1)) = 9` frames, while the claimed
count is `max(1, round(9.9)) = 10`. -/
theorem c1_counterexample :
    (emitMedia (33/100 : ℚ) 30 (Media.still (0 : ℕ))).length = 9 ∧
    specRoundFrameCount (33/100 : ℚ) 30 = 10 := by
  constructor
  · simp [emitMedia, numFramesStill_33_100]
  · unfold specRoundFrameCount
    have : round ((33/100 : ℚ) * 30) = 10 := by norm_num [round_eq]
    rw [this]; omega

/-- C3, amended: an animated item's emitted frame count is capped at
`int(duration * fps)` (truncation, not rounding) when that value is nonzero;
when `int(duration * fps) = 0` the Python truthiness test disables the cap
entirely and every native frame is emitted. -/
theorem c3_theorem {α : Type} (d f : ℚ) (frames : List α) (hdf : 0 ≤ d * f) :
    (emitMedia d f (Media.anim frames)).length =
      if pyInt (d * f) = 0 then frames.length
      else min frames.length (pyInt (d * f)).toNat := by
  by_cases h0 : pyInt (d * f) = 0
  · simp [emitMedia, h0, animLoop_zero]
  · have hge : 0 ≤ pyInt (d * f) := by
      rw [pyInt_of_nonneg hdf]; exact Int.floor_nonneg.mpr hdf
    have hpos : 0 < pyInt (d * f) := lt_of_le_of_ne hge (Ne.symm h0)
    rw [if_neg h0]
    simp only [emitMedia, List.length_map]
    rw [animLoop_length _ hpos frames 0 (by exact_mod_cast hpos)]
    simp

/-- Witness for C3's amended theorem: the spec's own end-to-end scenario,
target duration 1 s at 30 fps with at least 30 native frames, emits exactly
30 frames. -/
theorem c3_witness : (emitMedia (1 : ℚ) 30 (Media.anim (List.range 40))).length = 30 := by
  have h := c3_theorem (1 : ℚ) 30 (List.range 40) (by norm_num)
  rw [h]
  have h30 : pyInt ((1 : ℚ) * 30) = 30 := by
    rw [pyInt_of_nonneg (by norm_num)]; norm_num
  rw [h30]
  simp

/-- C3 fails as stated: with `duration = 0.03`, `fps = 30`, the claimed cap
is `round(0.9) = 1` frame, but `int(0.9) = 0` is falsy, the cap is disabled,
and an animated item with 5 native frames emits all 5 of them. -/
theorem c3_counterexample :
    (emitMedia (3/100 : ℚ) 30 (Media.anim ([0, 1, 2, 3, 4] : List ℕ))).length = 5 ∧
    specAnimCap (3/100 : ℚ) 30 = 1 := by
  constructor
  · have h0 : pyInt ((3/100 : ℚ) * 30) = 0 := by
      rw [pyInt_of_nonneg (by norm_num)]; norm_num
    simp [emitMedia, h0, animLoop_zero]
  · unfold specAnimCap
    norm_num [round_eq]

/-- C10: when `0 < DURATION * FPS < 1` the computed animated-item cap
`int(DURATION * FPS)` is 0, Python treats 0 as falsy, and every native frame
of the animated item is emitted (no cap at all). -/
theorem c10_theorem {α : Type} (d f : ℚ) (frames : List α)
    (h0 : 0 < d * f) (h1 : d * f < 1) :
    pyInt (d * f) = 0 ∧
    emitMedia d f (Media.anim frames) = frames.map (fun x => (x, 1)) := by
  have hz : pyInt (d * f) = 0 := by
    rw [pyInt_of_nonneg h0.le]
    exact Int.floor_eq_zero_iff.mpr (by rw [Set.mem_Ico]; exact ⟨h0.le, h1⟩)
  refine ⟨hz, ?_⟩
  simp [emitMedia, hz, animLoop_zero]

/-- Witness for C10: with `DURATION * FPS = 1/2`, a 3-frame animation emits
all 3 native frames. -/
theorem c10_witness :
    pyInt ((1/60 : ℚ) * 30) = 0 ∧
    emitMedia (1/60 : ℚ) 30 (Media.anim ([0, 1, 2] : List ℕ)) =
      [(0, 1), (1, 1), (2, 1)] := by
  have h := c10_theorem (1/60 : ℚ) 30 ([0, 1, 2] : List ℕ) (by norm_num) (by norm_num)
  exact ⟨h.1, by rw [h.2]; rfl⟩

lemma pyInt_le_of_le {q : ℚ} {m : ℤ} (h0 : 0 ≤ q) (h : q ≤ (m : ℚ)) :
    pyInt q ≤ m := by
  rw [pyInt_of_nonneg h0]
  calc ⌊q⌋ ≤ ⌊(m : ℚ)⌋ := Int.floor_le_floor h
    _ = m := Int.floor_intCast m

lemma zoomAt_mono (n : ℤ) (hn : 1 ≤ n) {a b : ℕ} (hab : a ≤ b) :
    zoomAt a n ≤ zoomAt b n := by
  unfold zoomAt
  have hn' : (0 : ℚ) < (n : ℚ) := by exact_mod_cast lt_of_lt_of_le zero_lt_one hn
  have hab' : (a : ℚ) ≤ (b : ℚ) := by exact_mod_cast hab
  have hdiv : (a : ℚ) / n ≤ (b : ℚ) / n := (div_le_div_iff_of_pos_right hn').mpr hab'
  have := mul_le_mul_of_nonneg_left hdiv (by norm_num : (0 : ℚ) ≤ 2/100)
  linarith

lemma map_snd_const_one {α : Type} : ∀ l : List α,
    List.map (Prod.snd ∘ fun fr => (fr, (1 : ℚ))) l = List.replicate l.length 1 := by
  intro l
  induction l with
  | nil => rfl
  | cons x xs ih => simp [ih, List.replicate_succ]

lemma chain'_replicate_le (n : ℕ) (c : ℚ) :
    List.Chain' (· ≤ ·) (List.replicate n c) := by
  induction n with
  | zero => simp
  | succ n ih =>
    cases n with
    | zero => simp
    | succ m =>
      rw [List.replicate_succ, List.replicate_succ, List.chain'_cons]
      refine ⟨le_refl c, ?_⟩
      rw [← List.replicate_succ]
      exact ih

/-- C2, amended: the composited background always has exactly the canvas
size (1920 by 1080), and the scaled foreground fits inside the canvas
whenever the zoom factor is at most 1 — which covers video frames, animated
frames and the first frame of each static item.  (For micro-zoom factors
greater than 1 the foreground can exceed the canvas; see the
counterexample.) -/
theorem c2_theorem (w h : ℕ) (z : ℚ) (hw : 0 < w) (hh : 0 < h)
    (hz0 : 0 ≤ z) (hz1 : z ≤ 1) :
    bgSize = (1920, 1080) ∧ fgW w h z ≤ 1920 ∧ fgH w h z ≤ 1080 := by
  have hw' : (0 : ℚ) < (w : ℚ) := by exact_mod_cast hw
  have hh' : (0 : ℚ) < (h : ℚ) := by exact_mod_cast hh
  have hs0 : 0 ≤ baseScale w h := by
    unfold baseScale
    exact le_min (div_nonneg (Nat.cast_nonneg _) hw'.le)
      (div_nonneg (Nat.cast_nonneg _) hh'.le)
  refine ⟨rfl, ?_, ?_⟩
  · have key : (w : ℚ) * baseScale w h * z ≤ ((1920 : ℤ) : ℚ) := by
      calc (w : ℚ) * baseScale w h * z
          ≤ (w : ℚ) * baseScale w h * 1 :=
            mul_le_mul_of_nonneg_left hz1 (mul_nonneg hw'.le hs0)
        _ = (w : ℚ) * baseScale w h := mul_one _
        _ ≤ (w : ℚ) * ((W : ℚ) / w) :=
            mul_le_mul_of_nonneg_left (min_le_left _ _) hw'.le
        _ = (W : ℚ) := by field_simp
        _ = ((1920 : ℤ) : ℚ) := by norm_num [W]
    exact pyInt_le_of_le (mul_nonneg (mul_nonneg hw'.le hs0) hz0) key
  · have key : (h : ℚ) * baseScale w h * z ≤ ((1080 : ℤ) : ℚ) := by
      calc (h : ℚ) * baseScale w h * z
          ≤ (h : ℚ) * baseScale w h * 1 :=
            mul_le_mul_of_nonneg_left hz1 (mul_nonneg hh'.le hs0)
        _ = (h : ℚ) * baseScale w h := mul_one _
        _ ≤ (h : ℚ) * ((H : ℚ) / h) :=
            mul_le_mul_of_nonneg_left (min_le_right _ _) hh'.le
        _ = (H : ℚ) := by field_simp
        _ = ((1080 : ℤ) : ℚ) := by norm_num [H]
    exact pyInt_le_of_le (mul_nonneg (mul_nonneg hh'.le hs0) hz0) key

/-- Witness for C2's amended theorem: a 640 by 480 source at zoom 1 fits the
canvas. -/
theorem c2_witness :
    bgSize = (1920, 1080) ∧ fgW 640 480 1 ≤ 1920 ∧ fgH 640 480 1 ≤ 1080 :=
  c2_theorem 640 480 1 (by norm_num) (by norm_num) (by norm_num) (by norm_num)

/-- C2 fails as stated: the pipeline really does use zoom factors above 1
(for a static item with `numFramesStill = 2` the second frame has zoom
101/100), and at that zoom a 1920 by 1080 source scales to 1939 by 1090,
exceeding the canvas in both dimensions. -/
theorem c2_counterexample :
    ((emitMedia (1/15 : ℚ) 30 (Media.still (0 : ℕ))).map Prod.snd) = [1, 101/100] ∧
    fgW 1920 1080 (101/100) = 1939 ∧ (1920 : ℤ) < 1939 ∧
    fgH 1920 1080 (101/100) = 1090 ∧ (1080 : ℤ) < 1090 := by
  have h2 : numFramesStill (1/15 : ℚ) 30 = 2 := by
    rw [numFramesStill_eq]
    have : ⌊(1/15 : ℚ) * 30⌋ = 2 := by norm_num
    rw [this]; omega
  have hb : baseScale 1920 1080 = 1 := by
    unfold baseScale W H; norm_num
  refine ⟨?_, ?_, by norm_num, ?_, by norm_num⟩
  · simp only [emitMedia]
    rw [h2]
    simp [List.range_succ, zoomAt, h2]
    norm_num
  · unfold fgW
    rw [hb, pyInt_of_nonneg (by norm_num)]
    norm_num
  · unfold fgH
    rw [hb, pyInt_of_nonneg (by norm_num)]
    norm_num

/-- C8: within every item the zoom factors of successive emitted frames form
a non-decreasing sequence, and the first emitted frame (when one exists) has
zoom exactly 1.  Videos and animations use the constant zoom 1; static items
use `1 + 0.02 * (idx / num_frames)`, which starts at 1 and increases. -/
theorem c8_theorem {α : Type} (d f : ℚ) (m : Media α) :
    List.Chain' (· ≤ ·) ((emitMedia d f m).map Prod.snd) ∧
    ((emitMedia d f m).map Prod.snd).headD 1 = 1 := by
  cases m with
  | vid frames =>
    have he : (emitMedia d f (Media.vid frames)).map Prod.snd =
        List.replicate frames.length (1 : ℚ) := by
      simp only [emitMedia, List.map_map]
      exact map_snd_const_one _
    rw [he]
    refine ⟨chain'_replicate_le _ _, ?_⟩
    cases frames <;> simp [List.replicate_succ]
  | anim frames =>
    have he : (emitMedia d f (Media.anim frames)).map Prod.snd =
        List.replicate (animLoop (pyInt (d * f)) 0 frames).length (1 : ℚ) := by
      simp only [emitMedia, List.map_map]
      exact map_snd_const_one _
    rw [he]
    refine ⟨chain'_replicate_le _ _, ?_⟩
    cases (animLoop (pyInt (d * f)) 0 frames) <;> simp [List.replicate_succ]
  | still img =>
    have hn := one_le_numFramesStill d f
    have he : (emitMedia d f (Media.still img)).map Prod.snd =
        (List.range (numFramesStill d f).toNat).map
          (fun i => zoomAt i (numFramesStill d f)) := by
      simp [emitMedia, List.map_map]
    rw [he]
    constructor
    · apply List.Pairwise.chain'
      rw [List.pairwise_map]
      exact (List.pairwise_lt_range _).imp (fun hab => zoomAt_mono _ hn hab.le)
    · obtain ⟨k, hk⟩ : ∃ k, (numFramesStill d f).toNat = k + 1 :=
        ⟨(numFramesStill d f).toNat - 1, by omega⟩
      rw [hk, List.range_succ_eq_map]
      simp [zoomAt]

lemma pyInt_zero : pyInt (0 : ℚ) = 0 := by
  rw [pyInt_of_nonneg le_rfl]; exact Int.floor_zero

lemma mainLoop_frames {α : Type} (d f : ℚ) :
    ∀ (t : ℕ) (items : List (Item α)),
      (mainLoop d f t items).1 = (items.map (emitItem d f)).flatten := by
  intro t items
  induction items generalizing t with
  | nil => rfl
  | cons it rest ih => simp [mainLoop, ih]

lemma mainLoop_chapters_length {α : Type} (d f : ℚ) :
    ∀ (t : ℕ) (items : List (Item α)),
      (mainLoop d f t items).2.length = items.length := by
  intro t items
  induction items generalizing t with
  | nil => rfl
  | cons it rest ih => simp [mainLoop, ih]

lemma mainLoop_chapters_getElem {α : Type} (d f : ℚ) :
    ∀ (items : List (Item α)) (t i : ℕ),
      (mainLoop d f t items).2[i]? =
        (items[i]?).map (fun it =>
          ⟨it.name,
           pyInt ((((t + (((items.take i).map
               (fun it2 => (emitItem d f it2).length)).sum) : ℕ) : ℚ) / f) * 1000),
           pyInt ((((t + (((items.take i).map
               (fun it2 => (emitItem d f it2).length)).sum) : ℕ) : ℚ) / f) * 1000)
             + pyInt (d * 1000)⟩) := by
  intro items
  induction items with
  | nil => intro t i; simp [mainLoop]
  | cons it rest ih =>
    intro t i
    cases i with
    | zero => simp [mainLoop]
    | succ i =>
      simp only [mainLoop, List.getElem?_cons_succ]
      rw [ih]
      simp only [List.take_succ_cons, List.map_cons, List.sum_cons]
      cases hr : rest[i]? with
      | none => simp
      | some it2 => simp [Nat.add_assoc]

/-- C5, amended: when no item fails mid-stream, the frame stream of a whole
run is exactly the concatenation, in input order, of the frames of the fully
decodable items; items whose decode fails at open are skipped by the
per-item `except: pass` and contribute no frames.  (Without that proviso the
claim fails: a reader that raises mid-stream has already piped a partial
prefix of frames — see the counterexample.) -/
theorem c5_theorem {α : Type} (d f : ℚ) (items : List (Item α))
    (h : (items.all (fun it => !(it.dec.isPart))) = true) :
    (mainLoop d f 0 items).1 =
      ((items.filterMap (fun it => it.dec.okMedia)).map (emitMedia d f)).flatten := by
  rw [mainLoop_frames]
  revert h
  induction items with
  | nil => intro _; rfl
  | cons it rest ih =>
    intro h
    rw [List.all_cons, Bool.and_eq_true] at h
    obtain ⟨h1, h2⟩ := h
    have ih' := ih h2
    cases hdec : it.dec with
    | fail => simp [List.filterMap_cons, hdec, emitItem, Dec.okMedia, ih']
    | ok m => simp [List.filterMap_cons, hdec, emitItem, Dec.okMedia, ih']
    | part m => rw [hdec] at h1; simp [Dec.isPart] at h1

/-- Witness for C5's amended theorem: a run with a fully decodable static
item, an item failing at open, and a fully decodable video, in that order. -/
theorem c5_witness :
    (mainLoop (33/100 : ℚ) 30 0
        [⟨"a.jpg", Dec.ok (Media.still (0 : ℕ))⟩, ⟨"bad.bin", Dec.fail⟩,
         ⟨"c.mp4", Dec.ok (Media.vid [5])⟩]).1 =
      ((([⟨"a.jpg", Dec.ok (Media.still (0 : ℕ))⟩, ⟨"bad.bin", Dec.fail⟩,
          ⟨"c.mp4", Dec.ok (Media.vid [5])⟩] : List (Item ℕ)).filterMap
           (fun it => it.dec.okMedia)).map (emitMedia (33/100 : ℚ) 30)).flatten :=
  c5_theorem (33/100 : ℚ) 30
    [⟨"a.jpg", Dec.ok (Media.still (0 : ℕ))⟩, ⟨"bad.bin", Dec.fail⟩,
     ⟨"c.mp4", Dec.ok (Media.vid [5])⟩] (by decide)

/-- C5 fails as stated: an animated item whose reader raises after yielding
2 frames has already written those 2 frames to the encoder (each frame is
piped before the next is decoded), so the failed item contributes a partial
prefix; in a 3-item run it contributes 2 of the 12 streamed frames, instead
of the claimed 0. -/
theorem c5_counterexample :
    emitItem (33/100 : ℚ) 30 (⟨"bad.gif", Dec.part (Media.anim ([1, 2] : List ℕ))⟩) =
      [(1, 1), (2, 1)] ∧
    (Dec.part (Media.anim ([1, 2] : List ℕ))).isPart = true ∧
    (mainLoop (33/100 : ℚ) 30 0
        [⟨"good.jpg", Dec.ok (Media.still (7 : ℕ))⟩,
         ⟨"bad.gif", Dec.part (Media.anim [1, 2])⟩,
         ⟨"good2.mp4", Dec.ok (Media.vid [9])⟩]).1.length = 12 := by
  have h9 : pyInt ((33/100 : ℚ) * 30) = 9 := by
    rw [pyInt_of_nonneg (by norm_num)]; norm_num
  refine ⟨?_, rfl, ?_⟩
  · simp [emitItem, emitMedia, h9, animLoop]
  · simp [mainLoop, emitItem, emitMedia, h9, animLoop, numFramesStill_33_100]

/-- C6, amended: a non-empty run spawns exactly two subprocesses — the
single `libsvtav1` encoder invocation and the chapter-injection command —
for every value of the encoder's exit status.  There is no fallback codec
and `process.wait()`'s result is never examined, so a primary-encoder
failure triggers no retry. -/
theorem c6_theorem {α : Type} (d f : ℚ) (crf preset outPath : String)
    (items : List (Item α)) (e : ℤ) (hne : items.isEmpty = false) :
    (mainModel d f crf preset outPath items e).spawned =
      [ffmpegCmd crf preset outPath, chapterCmd outPath (finalOutOf outPath)] := by
  unfold mainModel
  rw [if_neg (by simp [hne])]

/-- Witness for C6's amended theorem at a concrete one-item run with the
encoder reporting failure (`wait()` returning 1). -/
theorem c6_witness :
    (mainModel (33/100 : ℚ) 30 ("32") ("8") ("output/out.mkv")
        ([⟨"0000.jpg", Dec.ok (Media.still (0 : ℕ))⟩]) 1).spawned =
      [ffmpegCmd ("32") ("8") ("output/out.mkv"),
       chapterCmd ("output/out.mkv") (finalOutOf ("output/out.mkv"))] :=
  c6_theorem (33/100 : ℚ) 30 ("32") ("8") ("output/out.mkv")
    ([⟨"0000.jpg", Dec.ok (Media.still (0 : ℕ))⟩]) 1 rfl

/-- C6 fails as stated: in a run whose encoder exits with status 1 the
pipeline spawns exactly two subprocesses and exactly one of them is an
encoder invocation (the `libsvtav1` one) — no second, fallback-codec encode
is ever attempted, and the run still ends the loop normally. -/
theorem c6_counterexample :
    (mainModel (33/100 : ℚ) 30 ("32") ("8") ("output/out.mkv")
        ([⟨"0000.jpg", Dec.ok (Media.still (0 : ℕ))⟩]) 1).spawned.length = 2 ∧
    ((mainModel (33/100 : ℚ) 30 ("32") ("8") ("output/out.mkv")
        ([⟨"0000.jpg", Dec.ok (Media.still (0 : ℕ))⟩]) 1).spawned.filter
      (fun c => c.contains ("libsvtav1"))).length = 1 := by
  constructor
  · simp [mainModel]
  · decide

/-- C7, amended: with an empty collected-file list the run stops before any
subprocess is spawned and writes no output file, but it returns normally
(Python `return` from `main`), i.e. it still signals success — not a
distinct failure status. -/
theorem c7_theorem {α : Type} (d f : ℚ) (crf preset outPath : String) (e : ℤ) :
    (mainModel d f crf preset outPath ([] : List (Item α)) e).wroteOutput = false ∧
    (mainModel d f crf preset outPath ([] : List (Item α)) e).exitSuccess = true ∧
    (mainModel d f crf preset outPath ([] : List (Item α)) e).spawned = [] :=
  ⟨rfl, rfl, rfl⟩

/-- C7 fails as stated: on an empty media list the run indeed writes no
output, but its completion status is the success status (`main` just
returns, exit code 0), contradicting the claimed distinct failure signal. -/
theorem c7_counterexample :
    (mainModel (33/100 : ℚ) 30 ("32") ("8") ("output/out.mkv")
        ([] : List (Item ℕ)) 0).wroteOutput = false ∧
    (mainModel (33/100 : ℚ) 30 ("32") ("8") ("output/out.mkv")
        ([] : List (Item ℕ)) 0).exitSuccess = true :=
  ⟨rfl, rfl⟩

/-- C9, amended: the run writes exactly one chapter marker per collected
item (also for failed items), titled with the item's name; the `START`
timestamp is derived from the cumulative count of frames emitted before the
item (`int(1000 * total_frames / fps)`), but the `END` timestamp is always
`START + int(duration * 1000)` — a fixed offset, not the cumulative frame
count after the item. -/
theorem c9_theorem {α : Type} (d f : ℚ) (items : List (Item α)) (i : ℕ) :
    (mainLoop d f 0 items).2.length = items.length ∧
    (mainLoop d f 0 items).2[i]? =
      (items[i]?).map (fun it =>
        ⟨it.name,
         pyInt ((((((items.take i).map
             (fun it2 => (emitItem d f it2).length)).sum : ℕ) : ℚ) / f) * 1000),
         pyInt ((((((items.take i).map
             (fun it2 => (emitItem d f it2).length)).sum : ℕ) : ℚ) / f) * 1000)
           + pyInt (d * 1000)⟩) := by
  refine ⟨mainLoop_chapters_length d f 0 items, ?_⟩
  have h := mainLoop_chapters_getElem d f items 0 i
  simpa using h

/-- C9 fails as stated: a single 2-frame video item at `duration = 0.33`,
`fps = 30` gets the chapter `[0, 330]` ms, although only 2 frames
(66 ms worth) are emitted — the end timestamp is the fixed
`START + int(0.33 * 1000) = 330`, not the cumulative-frame time 66. -/
theorem c9_counterexample :
    (mainLoop (33/100 : ℚ) 30 0
        ([⟨"v.mp4", Dec.ok (Media.vid ([0, 0] : List ℕ))⟩])).2 =
      [⟨"v.mp4", 0, 330⟩] ∧
    (mainLoop (33/100 : ℚ) 30 0
        ([⟨"v.mp4", Dec.ok (Media.vid ([0, 0] : List ℕ))⟩])).1.length = 2 ∧
    pyInt (((2 : ℚ) / 30) * 1000) = 66 := by
  have e330 : pyInt ((33/100 : ℚ) * 1000) = 330 := by
    rw [pyInt_of_nonneg (by norm_num)]; norm_num
  have e66 : pyInt (((2 : ℚ) / 30) * 1000) = 66 := by
    rw [pyInt_of_nonneg (by norm_num)]; norm_num
  refine ⟨?_, ?_, e66⟩
  · simp [mainLoop, emitItem, emitMedia, e330, pyInt_zero]
  · simp [mainLoop, emitItem, emitMedia]

lemma pyIsDigit_of_isDigit {c : Char} (h : c.isDigit = true) :
    pyIsDigit c = true := by
  simp [pyIsDigit, h]

lemma pyIsDigit_eq_isDigit_of_ascii (c : Char) (ha : isAsciiChar c = true) :
    pyIsDigit c = c.isDigit := by
  have ha' : c.toNat ≤ 127 := of_decide_eq_true ha
  by_cases hd : c.isDigit
  · simp [pyIsDigit, hd]
  · rw [Bool.not_eq_true] at hd
    simp only [pyIsDigit, hd, Bool.false_eq_true, if_false]
    rw [if_neg (by omega), if_neg (by omega)]

lemma pyIntOfStr_isSome :
    ∀ (d : List Char) (a : ℕ), (∀ c ∈ d, c.isDigit = true) →
      ∃ n, pyIntOfStr a d = some n := by
  intro d
  induction d with
  | nil => intro a _; exact ⟨a, rfl⟩
  | cons c cs ih =>
    intro a h
    have hc := h c (List.mem_cons_self c cs)
    have hv : decDigitVal c = some (c.toNat - 48) := by simp [decDigitVal, hc]
    simp only [pyIntOfStr, hv]
    exact ih _ (fun x hx => h x (List.mem_cons_of_mem _ hx))

lemma tokOf_nondigit (r : List Char) (hr : ∀ c ∈ r, pyIsDigit c = false) :
    tokOf r = some (Tok.str (r.map Char.toLower)) := by
  cases r with
  | nil => rfl
  | cons c cs =>
    have hc := hr c (List.mem_cons_self c cs)
    unfold tokOf
    rw [if_neg (by simp [hc])]

lemma tokOf_digit (d : List Char) (hd : d ≠ []) (hd2 : ∀ c ∈ d, c.isDigit = true) :
    ∃ n, tokOf d = some (Tok.num n) := by
  obtain ⟨n, hn⟩ := pyIntOfStr_isSome d 0 hd2
  refine ⟨n, ?_⟩
  unfold tokOf
  rw [if_pos (by
    simp [hd, List.isEmpty_iff]
    intro c hc
    exact pyIsDigit_of_isDigit (hd2 c hc))]
  rw [hn]
  rfl

lemma altRuns_splitStep (c : Char) {ks : List (List Char)} (h : AltRuns ks) :
    AltRuns (splitStep c ks) := by
  cases h with
  | last r hr =>
    by_cases hc : c.isDigit
    · cases r with
      | nil =>
        simp only [splitStep, hc, if_true]
        exact AltRuns.cons [] [c] [[]] (by simp) (by simp) (by simp [hc])
          (AltRuns.last [] (by simp))
      | cons r0 rtl =>
        simp only [splitStep, hc, if_true]
        exact AltRuns.cons [] [c] [r0 :: rtl] (by simp) (by simp) (by simp [hc])
          (AltRuns.last _ hr)
    · rw [Bool.not_eq_true] at hc
      simp only [splitStep, hc, Bool.false_eq_true, if_false]
      refine AltRuns.last (c :: r) ?_
      intro x hx
      rcases List.mem_cons.mp hx with h1 | h1
      · exact h1 ▸ hc
      · exact hr x h1
  | cons r dd rest hr hd hd2 hrest =>
    by_cases hc : c.isDigit
    · cases r with
      | nil =>
        simp only [splitStep, hc, if_true]
        refine AltRuns.cons [] (c :: dd) rest (by simp) (by simp) ?_ hrest
        intro x hx
        rcases List.mem_cons.mp hx with h1 | h1
        · exact h1 ▸ hc
        · exact hd2 x h1
      | cons r0 rtl =>
        simp only [splitStep, hc, if_true]
        exact AltRuns.cons [] [c] ((r0 :: rtl) :: dd :: rest) (by simp) (by simp)
          (by simp [hc]) (AltRuns.cons _ _ _ hr hd hd2 hrest)
    · rw [Bool.not_eq_true] at hc
      simp only [splitStep, hc, Bool.false_eq_true, if_false]
      refine AltRuns.cons (c :: r) dd rest ?_ hd hd2 hrest
      intro x hx
      rcases List.mem_cons.mp hx with h1 | h1
      · exact h1 ▸ hc
      · exact hr x h1

lemma altRuns_splitRuns (cs : List Char) : AltRuns (splitRuns cs) := by
  induction cs with
  | nil => exact AltRuns.last [] (by simp)
  | cons c cs ih => exact altRuns_splitStep c ih

lemma cmpNat_self (a : ℕ) : cmpNat a a = Ordering.eq := by
  simp [cmpNat]

lemma cmpChars_self : ∀ l : List Char, cmpChars l l = Ordering.eq := by
  intro l
  induction l with
  | nil => rfl
  | cons c cs ih => simp [cmpChars, cmpNat_self, ih]

lemma cmpTok_self (t : Tok) : cmpTok t t = some Ordering.eq := by
  cases t <;> simp [cmpTok, cmpNat_self, cmpChars_self]

lemma cmpKey_self : ∀ ks : List Tok, cmpKey ks ks = some Ordering.eq := by
  intro ks
  induction ks with
  | nil => rfl
  | cons t ts ih => simp [cmpKey, cmpTok_self, ih]

lemma cmpKey_isSome_of_altToks {ks₁ ks₂ : List Tok}
    (h₁ : AltToks ks₁) (h₂ : AltToks ks₂) :
    (cmpKey ks₁ ks₂).isSome = true := by
  induction h₁ generalizing ks₂ with
  | last s =>
    cases h₂ with
    | last s₂ =>
      simp only [cmpKey, cmpTok]
      cases cmpChars s s₂ <;> simp [cmpKey]
    | cons s₂ n₂ rest₂ hrest₂ =>
      simp only [cmpKey, cmpTok]
      cases cmpChars s s₂ <;> simp [cmpKey]
  | cons s n rest hrest ih =>
    cases h₂ with
    | last s₂ =>
      simp only [cmpKey, cmpTok]
      cases cmpChars s s₂ <;> simp [cmpKey]
    | cons s₂ n₂ rest₂ hrest₂ =>
      simp only [cmpKey, cmpTok]
      cases cmpChars s s₂ with
      | lt => simp
      | gt => simp
      | eq =>
        simp only [cmpKey, cmpTok]
        cases cmpNat n n₂ with
        | lt => simp
        | gt => simp
        | eq => simpa using ih hrest₂

lemma splitStep_mem_sub (c : Char) (ks : List (List Char)) :
    ∀ r ∈ splitStep c ks, ∀ x ∈ r, x = c ∨ ∃ r' ∈ ks, x ∈ r' := by
  intro r hr x hx
  cases ks with
  | nil =>
    simp [splitStep] at hr
    subst hr
    simp at hx
    exact Or.inl hx
  | cons r0 rs =>
    by_cases hc : c.isDigit
    · cases r0 with
      | nil =>
        cases rs with
        | nil =>
          simp [splitStep, hc] at hr
          rcases hr with h1 | h1 | h1
          · subst h1; simp at hx
          · subst h1; simp at hx; exact Or.inl hx
          · subst h1; simp at hx
        | cons dd rest =>
          simp [splitStep, hc] at hr
          rcases hr with h1 | h1 | h1
          · subst h1; simp at hx
          · subst h1
            rcases List.mem_cons.mp hx with h2 | h2
            · exact Or.inl h2
            · exact Or.inr ⟨dd, by simp, h2⟩
          · exact Or.inr ⟨r, by simp [h1], hx⟩
      | cons a as =>
        simp [splitStep, hc] at hr
        rcases hr with h1 | h1 | h1
        · subst h1; simp at hx
        · subst h1; simp at hx; exact Or.inl hx
        · exact Or.inr ⟨r, by simp [h1], hx⟩
    · rw [Bool.not_eq_true] at hc
      simp [splitStep, hc] at hr
      rcases hr with h1 | h1
      · subst h1
        rcases List.mem_cons.mp hx with h2 | h2
        · exact Or.inl h2
        · exact Or.inr ⟨r0, by simp, h2⟩
      · exact Or.inr ⟨r, by simp [h1], hx⟩

lemma splitRuns_mem : ∀ (cs : List Char) (r : List Char),
    r ∈ splitRuns cs → ∀ x ∈ r, x ∈ cs := by
  intro cs
  induction cs with
  | nil =>
    intro r hr x hx
    simp [splitRuns] at hr
    subst hr
    simp at hx
  | cons c cs ih =>
    intro r hr x hx
    simp only [splitRuns] at hr
    rcases splitStep_mem_sub c (splitRuns cs) r hr x hx with h | ⟨r', hr', hx'⟩
    · simp [h]
    · exact List.mem_cons_of_mem _ (ih r' hr' x hx')

lemma tokList_some_of_alt : ∀ {ks : List (List Char)}, AltRuns ks →
    (∀ r ∈ ks, ∀ c ∈ r, isAsciiChar c = true) →
    ∃ ts, tokList ks = some ts ∧ AltToks ts := by
  intro ks h
  induction h with
  | last r hr =>
    intro hascii
    have hr' : ∀ c ∈ r, pyIsDigit c = false := by
      intro c hc
      rw [pyIsDigit_eq_isDigit_of_ascii c (hascii r (by simp) c hc)]
      exact hr c hc
    refine ⟨[Tok.str (r.map Char.toLower)], ?_, AltToks.last _⟩
    simp [tokList, tokOf_nondigit r hr']
  | cons r d rest hr hd hd2 hrest ih =>
    intro hascii
    have hascii' : ∀ r' ∈ rest, ∀ c ∈ r', isAsciiChar c = true := by
      intro r' h' c hc
      exact hascii r' (by simp [h']) c hc
    obtain ⟨ts, hts, halt⟩ := ih hascii'
    have hr' : ∀ c ∈ r, pyIsDigit c = false := by
      intro c hc
      rw [pyIsDigit_eq_isDigit_of_ascii c (hascii r (by simp) c hc)]
      exact hr c hc
    obtain ⟨n, hn⟩ := tokOf_digit d hd hd2
    refine ⟨Tok.str (r.map Char.toLower) :: Tok.num n :: ts, ?_,
      AltToks.cons _ _ _ halt⟩
    simp [tokList, tokOf_nondigit r hr', hn, hts]

/-- C4, amended: the sort key compares digit runs numerically and other runs
case-insensitively, so `img2` sorts before `img10`, and key comparison is
deterministic (a key always compares equal to itself, so re-running the sort
on the same input is stable).  For paths made only of ASCII characters the
comparison is also total: token positions alternate strings and numbers, so
no `int`-vs-`str` comparison occurs.  The relation is however not the
claimed strict total order, for two reasons: distinct paths differing only
in letter case receive identical keys and tie — resolved by input order, not
by full-string comparison (see the counterexample) — and outside ASCII,
Python's Unicode-aware `isdigit` can put an `int` at a string position, so
building the key of `1²2.jpg` raises `ValueError`, and sorting `1٣2.jpg`
against `1a2.jpg` raises `TypeError` (both modelled as `none`). -/
theorem c4_theorem :
    (∀ s : String, cmpPaths s s = (pyKey s).map (fun _ => Ordering.eq)) ∧
    cmpPaths ("img2.jpg") ("img10.jpg") = some Ordering.lt ∧
    (∀ s t : String, s.data.all isAsciiChar = true → t.data.all isAsciiChar = true →
      (cmpPaths s t).isSome = true) ∧
    pyKey ("1²2.jpg") = none ∧
    cmpPaths ("1٣2.jpg") ("1a2.jpg") = none := by
  refine ⟨?_, by decide, ?_, by decide, by decide⟩
  · intro s
    unfold cmpPaths
    cases h : pyKey s with
    | none => simp
    | some k => simp [cmpKey_self k]
  · intro s t hs ht
    have hs' : ∀ r ∈ splitRuns s.data, ∀ c ∈ r, isAsciiChar c = true := by
      intro r hr c hc
      exact (List.all_eq_true.mp hs) c (splitRuns_mem s.data r hr c hc)
    have ht' : ∀ r ∈ splitRuns t.data, ∀ c ∈ r, isAsciiChar c = true := by
      intro r hr c hc
      exact (List.all_eq_true.mp ht) c (splitRuns_mem t.data r hr c hc)
    obtain ⟨ts1, h1, a1⟩ := tokList_some_of_alt (altRuns_splitRuns s.data) hs'
    obtain ⟨ts2, h2, a2⟩ := tokList_some_of_alt (altRuns_splitRuns t.data) ht'
    unfold cmpPaths pyKey
    rw [h1, h2]
    exact cmpKey_isSome_of_altToks a1 a2

/-- Witness for C4's amended theorem: two concrete ASCII paths whose
comparison is defined. -/
theorem c4_witness : (cmpPaths ("img2.jpg") ("a1.jpg")).isSome = true := by
  have h := c4_theorem.2.2.1 ("img2.jpg") ("a1.jpg") (by decide) (by decide)
  exact h

/-- C4 fails as stated: the distinct paths `A1.jpg` and `a1.jpg` receive
byte-identical sort keys, so two different paths compare equal — the claimed
strict total order with full-string tie-breaking does not hold. -/
theorem c4_counterexample :
    pyKey ("A1.jpg") = pyKey ("a1.jpg") ∧ ("A1.jpg" == "a1.jpg") = false := by
  decide

end Zip2Vid
